import Mathlib

set_option maxRecDepth 8000

/-!
Verification of the retrieval-and-ranking core of the LLM query-retrieval
repository.  Python functions from `src/` are shallowly embedded as Lean
definitions: strings stay strings (Python `len` is the character count,
`encode("utf-8")` length is modelled by `utf8Len`), dictionaries become
insertion-ordered association lists, SQLite tables become explicit row lists,
and external collaborators (the sentence-transformer encoder, the FAISS ANN
search, the LangChain splitter, the LLM) are parameters of the embedded
functions.  Scores use exact rationals in place of Python floats.
-/

namespace LLMQR

/-- Python `s.strip()`: drop leading and trailing whitespace characters. -/
def pyStrip (s : String) : String :=
  String.mk (((s.data.dropWhile Char.isWhitespace).reverse.dropWhile
    Char.isWhitespace).reverse)

/-- Length in bytes of the UTF-8 encoding of `s`
(Python `len(s.encode("utf-8"))`). -/
def utf8Len (s : String) : Nat :=
  s.data.foldl (fun n c => n + c.utf8Size) 0

/-! ## Document store (`src/database/sqlite_client.py`)

The `documents` table has `id INTEGER PRIMARY KEY AUTOINCREMENT` and
`url TEXT UNIQUE`.  `seq` models the SQLite `AUTOINCREMENT` sequence: ids are
never reused, each insert takes `seq + 1`.  `INSERT OR REPLACE` deletes any
row with the same url before inserting the fresh row. -/

structure DocRow where
  id : Nat
  url : String
  filename : String
deriving DecidableEq

structure DocDB where
  rows : List DocRow
  seq : Nat
deriving DecidableEq

/-- `SQLiteClient.get_document_id`: `SELECT id FROM documents WHERE url = ?`,
first matching row or null. -/
def get_document_id (db : DocDB) (url : String) : Option Nat :=
  (db.rows.find? (fun r => r.url == url)).map (fun r => r.id)

/-- `SQLiteClient.store_document`: `INSERT OR REPLACE INTO documents
(url, filename) VALUES (?, ?)` followed by `SELECT id FROM documents WHERE
url = ?`.  The REPLACE conflict resolution deletes the old row with this url;
the inserted row receives a fresh `AUTOINCREMENT` id. -/
def store_document (db : DocDB) (url filename : String) : DocDB × Option Nat :=
  let newId := db.seq + 1
  let rows2 := db.rows.filter (fun r => r.url != url) ++ [⟨newId, url, filename⟩]
  let db2 : DocDB := ⟨rows2, newId⟩
  (db2, get_document_id db2 url)

/-! ## Character-list substring primitives

Python substring tests and `str.find` are modelled directly on the character
lists underlying Lean strings, so that every definition evaluates inside the
kernel. -/

/-- `charsLeadMatch needle hay` holds when `needle` is an initial segment of
`hay`. -/
def charsLeadMatch : List Char → List Char → Bool
  | [], _ => true
  | _ :: _, [] => false
  | a :: as, b :: bs => a == b && charsLeadMatch as bs

/-- `charsContain needle hay`: `needle` occurs contiguously inside `hay`. -/
def charsContain : List Char → List Char → Bool
  | needle, [] => charsLeadMatch needle []
  | needle, h :: hs => charsLeadMatch needle (h :: hs) || charsContain needle hs

/-- Character index of the first occurrence of `needle` in `hay`, `-1` when
absent. -/
def charsFirstIdx : List Char → List Char → Int
  | needle, [] => if charsLeadMatch needle [] then 0 else -1
  | needle, h :: hs =>
    if charsLeadMatch needle (h :: hs) then 0
    else
      let r := charsFirstIdx needle hs
      if r < 0 then -1 else r + 1

/-- Python `needle in hay` (substring containment). -/
def pyIn (needle hay : String) : Bool :=
  charsContain needle.data hay.data

/-- Python `hay.find(needle)`: character index of the first occurrence, `-1`
when absent, `0` for the empty needle. -/
def pyFind (hay needle : String) : Int :=
  charsFirstIdx needle.data hay.data

/-- Python `s.lower()` (per-character lowering). -/
def pyLower (s : String) : String :=
  String.mk (s.data.map Char.toLower)

/-! ## Candidate and metadata records

A retrieval candidate dictionary `{"clause", "score", "page", "doc_id",
"keyword_matches"}`; absent optional keys are `none`/`false`.  A metadata
entry `{"clause", "doc_id", "page"}` as written by
`EmbeddingGenerator.generate_embeddings`. -/

structure Cand where
  clause : String
  score : ℚ
  page : Option Int
  doc_id : Option Int
  keyword_matches : Bool
deriving DecidableEq

structure ClauseMeta where
  clause : String
  doc_id : Int
  page : Option Int
deriving DecidableEq

/-! ## Chunker (`src/core/chunking_utils.py`, `chunk_clauses_optimized`)

`split_text` stands for the external LangChain
`RecursiveCharacterTextSplitter.split_text` collaborator (modelled as a total
function, so the `except` fallback branch is unreachable).  Python `len` on a
string is the character count, modelled by `String.length`. -/

/-- `pages[idx] if pages and idx < len(pages) else None`. -/
def pageAt (pages : Option (List (Option Int))) (idx : Nat) : Option Int :=
  match pages with
  | none => none
  | some ps => if idx < ps.length then ps.getD idx none else none

/-- Body of the per-clause loop of `chunk_clauses_optimized`: skip
whitespace-only clauses, pass a fitting clause through unchanged, otherwise
split and keep the stripped non-empty pieces. -/
def chunkOne (split_text : String → List String) (chunk_size : Nat)
    (clause_text : String) (clause_page : Option Int) :
    List (String × Option Int) :=
  if pyStrip clause_text = "" then []
  else if clause_text.length ≤ chunk_size then [(clause_text, clause_page)]
  else
    (split_text clause_text).filterMap (fun chunk =>
      if pyStrip chunk = "" then none else some (pyStrip chunk, clause_page))

/-- The indexed loop over `enumerate(clauses)`. -/
def chunkClausesGo (split_text : String → List String)
    (pages : Option (List (Option Int))) (chunk_size : Nat) :
    Nat → List String → List (String × Option Int)
  | _, [] => []
  | idx, c :: rest =>
    chunkOne split_text chunk_size c (pageAt pages idx)
      ++ chunkClausesGo split_text pages chunk_size (idx + 1) rest

/-- `chunk_clauses_optimized(clauses, pages, max_clause_size)`; returns the
pair of parallel lists `(chunked_clauses, chunked_pages)`. -/
def chunk_clauses_optimized (split_text : String → List String)
    (clauses : List String) (pages : Option (List (Option Int)))
    (max_clause_size : Nat) : List String × List (Option Int) :=
  let prs := chunkClausesGo split_text pages max_clause_size 0 clauses
  (prs.map Prod.fst, prs.map Prod.snd)

/-! ## Vector index (`src/core/embedding_generator.py`)

State of `EmbeddingGenerator`: the FAISS index is abstracted to its vector
count `ntotal` (for insertion) plus an ANN oracle passed to search;
`clause_metadata` is the insertion-ordered JSON dictionary; `vector_id_order`
the order manifest; `vector_count` the cached `self.vector_count` field.
The sentence-transformer encoder returns one embedding per input clause, so a
batch insert of `clauses` grows the FAISS index by `clauses.length`.
`_load_metadata()` inside `generate_embeddings` re-reads the file last saved,
which in a single-process run equals the in-memory dictionary. -/

structure EmbIndex where
  ntotal : Nat
  clause_metadata : List (String × ClauseMeta)
  vector_id_order : List String
  vector_count : Nat
deriving DecidableEq

/-- Python dict assignment `m[k] = v`: replace in place when the key exists
(keeping its position), otherwise append. -/
def dictInsert (m : List (String × ClauseMeta)) (k : String) (v : ClauseMeta) :
    List (String × ClauseMeta) :=
  if m.any (fun p => p.1 == k) then
    m.map (fun p => if p.1 == k then (k, v) else p)
  else m ++ [(k, v)]

/-- Python dict lookup `m[k]` (`none` models a `KeyError`). -/
def dictFind (m : List (String × ClauseMeta)) (k : String) : Option ClauseMeta :=
  (m.find? (fun p => p.1 == k)).map Prod.snd

/-- The vector id `f"{doc_id}_{i}"`. -/
def vidName (doc_id : Int) (i : Nat) : String :=
  toString doc_id ++ "_" ++ toString i

/-- The metadata-population loop of `generate_embeddings`
(`existing_metadata[vector_id] = {"clause": ..., "doc_id": ..., "page": ...}`
for each enumerated clause). -/
def metaInsertLoop (doc_id : Int) (pages : Option (List (Option Int))) :
    Nat → List String → List (String × ClauseMeta) → List (String × ClauseMeta)
  | _, [], m => m
  | i, c :: rest, m =>
    metaInsertLoop doc_id pages (i + 1) rest
      (dictInsert m (vidName doc_id i) ⟨c, doc_id, pageAt pages i⟩)

/-- `EmbeddingGenerator.generate_embeddings`: empty batches return `[]` and
leave the state untouched; otherwise each clause gets the id
`f"{doc_id}_{i}"`, the metadata map is upserted, every id is appended to
`vector_id_order`, the embeddings are batch-added to the FAISS index
(one vector per clause) and `vector_count` is refreshed from
`index.ntotal`. -/
def generate_embeddings (st : EmbIndex) (clauses : List String) (doc_id : Int)
    (pages : Option (List (Option Int))) : EmbIndex × List String :=
  if clauses = [] then (st, [])
  else
    let vector_ids := (List.range clauses.length).map (vidName doc_id)
    let meta2 := metaInsertLoop doc_id pages 0 clauses st.clause_metadata
    let order2 := st.vector_id_order ++ vector_ids
    let ntotal2 := st.ntotal + clauses.length
    (⟨ntotal2, meta2, order2, ntotal2⟩, vector_ids)

/-- States of the vector index reachable from a fresh empty index through
insert batches. -/
inductive Reachable : EmbIndex → Prop
  | init : Reachable ⟨0, [], [], 0⟩
  | step (st : EmbIndex) (clauses : List String) (doc_id : Int)
      (pages : Option (List (Option Int))) :
      Reachable st → Reachable (generate_embeddings st clauses doc_id pages).1

/-- Stable descending insertion by score (matches Python
`sorted(key=lambda x: x["score"], reverse=True)`). -/
def insertCand (c : Cand) : List Cand → List Cand
  | [] => [c]
  | d :: ds => if c.score ≥ d.score then c :: d :: ds else d :: insertCand c ds

/-- Stable sort, descending by score. -/
def sortByScoreDesc : List Cand → List Cand
  | [] => []
  | c :: rest => insertCand c (sortByScoreDesc rest)

/-- The candidate-pool size of `search_similar_clauses`, line 105:
`search_k = min(top_k * 2, max(100, self.vector_count))`. -/
def search_pool (top_k vector_count : Nat) : Nat :=
  min (top_k * 2) (max 100 vector_count)

/-- The pool size the spec asserts: `max(2k, 100, current_size)`. -/
def specSearchPool (top_k vector_count : Nat) : Nat :=
  max (max (top_k * 2) 100) vector_count

/-- Python `l[i]` on a list: non-negative indexing plus negative wrap-around;
`none` models an `IndexError`. -/
def pyListGet (l : List String) (i : Int) : Option String :=
  if 0 ≤ i then l[i.toNat]?
  else
    let j := (l.length : Int) + i
    if 0 ≤ j then l[j.toNat]? else none

/-- The result-collection loop of `search_similar_clauses` over the
`(index, distance)` pairs returned by the ANN: skip padding `-1` and
out-of-range offsets, drop rows of another document when a filter is given,
keep `score = 1 / (1 + distance)` above the `0.01` floor.  A `none` result
models a raised `KeyError`/`IndexError`, which the surrounding
`try/except` turns into `[]`. -/
def searchLoop (meta : List (String × ClauseMeta)) (keys : List String)
    (doc_filter : Option Int) : List (Int × ℚ) → Option (List Cand)
  | [] => some []
  | (idx, distance) :: rest =>
    if idx ≠ -1 ∧ idx < (keys.length : Int) then
      match pyListGet keys idx with
      | none => none
      | some vector_id =>
        match dictFind meta vector_id with
        | none => none
        | some clause_data =>
          let keep : Bool :=
            match doc_filter with
            | some d => clause_data.doc_id == d
            | none => true
          if keep then
            let score : ℚ := 1 / (1 + distance)
            if score > 0.01 then
              (searchLoop meta keys doc_filter rest).map
                (fun r =>
                  ⟨clause_data.clause, score, clause_data.page,
                    some clause_data.doc_id, false⟩ :: r)
            else searchLoop meta keys doc_filter rest
          else searchLoop meta keys doc_filter rest
    else searchLoop meta keys doc_filter rest

/-- Sort-and-truncate tail of `search_similar_clauses`
(`results = sorted(...); return results[:top_k] if len(results) > top_k else
results`), with `none` standing for a caught exception (`return []`).
For context: `ann k` stands for the
FAISS `index.search` call returning `k` `(offset, distance)` pairs for the
encoded query.  The id manifest is used as the offset-to-id map unless its
length disagrees with the vector count, in which case the metadata key order
is the fallback. -/
def searchPost (top_k : Nat) : Option (List Cand) → List Cand
  | none => []
  | some results =>
    let sorted := sortByScoreDesc results
    if sorted.length > top_k then sorted.take top_k else sorted

/-- `EmbeddingGenerator.search_similar_clauses`, assembled from the loop and
the sort-and-truncate tail above. -/
def searchSimilarClauses (st : EmbIndex) (ann : Nat → List (Int × ℚ))
    (top_k : Nat) (doc_filter : Option Int) : List Cand :=
  let search_k := search_pool top_k st.vector_count
  let pairs := ann search_k
  let metadata_keys :=
    if st.vector_id_order.length ≠ st.vector_count then
      st.clause_metadata.map Prod.fst
    else st.vector_id_order
  searchPost top_k (searchLoop st.clause_metadata metadata_keys doc_filter pairs)

/-- Concrete index state for the C3 counterexample: 30 vectors, an aligned
30-entry manifest whose first id is `"x"`, metadata for `"x"`. -/
def cexIndexState : EmbIndex :=
  ⟨30, [("x", ⟨"hello", 1, none⟩)], "x" :: List.replicate 29 "y", 30⟩

/-- ANN oracle returning one hit when asked for a pool of 60 candidates. -/
def cexAnnHit : Nat → List (Int × ℚ) := fun n => if n = 60 then [(0, 0)] else []

/-- ANN oracle returning no hits. -/
def cexAnnMiss : Nat → List (Int × ℚ) := fun _ => []

/-- ANN oracle returning a hit only for a pool of 100 candidates. -/
def cexAnnAt100 : Nat → List (Int × ℚ) :=
  fun n => if n = 100 then [(0, 0)] else []

/-- `doc_id is not None and clause_data.get("doc_id") != doc_id → skip`,
as a keep-predicate. -/
def kwKeep (doc_filter : Option Int) (cd : ClauseMeta) : Bool :=
  match doc_filter with
  | some d => cd.doc_id == d
  | none => true

/-- The per-row body of `search_by_keywords`: count case-insensitive keyword
containment; when at least one matches, score
`match_count * 0.5` plus `0.3` for each keyword first found before character
position 100, and flag `keyword_matches`. -/
def kwCandidate (kls : List String) (cd : ClauseMeta) : Option Cand :=
  let clause_text := pyLower cd.clause
  let match_count := kls.countP (fun k => pyIn k clause_text)
  if 0 < match_count then
    some ⟨cd.clause,
      kls.foldl (fun s k =>
        if 0 ≤ pyFind clause_text k ∧ pyFind clause_text k < 100 then s + 0.3
        else s)
        ((match_count : ℚ) * 0.5),
      cd.page, none, true⟩
  else none

/-- `EmbeddingGenerator.search_by_keywords`: linear scan of the metadata map,
sort descending by score, return the first `top_k`. -/
def search_by_keywords (meta : List (String × ClauseMeta))
    (keywords : List String) (doc_filter : Option Int) (top_k : Nat) :
    List Cand :=
  let kls := keywords.map pyLower
  let results := meta.foldl (fun acc p =>
    if kwKeep doc_filter p.2 then
      match kwCandidate kls p.2 with
      | some c => acc ++ [c]
      | none => acc
    else acc) []
  (sortByScoreDesc results).take top_k

/-! ## Hybrid merge (`src/core/decision_engine.py` lines 220-238 and
`src/core/clause_matcher.py` lines 97-112) -/

/-- The dedup fingerprint of `_retrieve_relevant_clauses`:
`clause_text[:150].lower().strip()`. -/
def fpKey (c : Cand) : String :=
  pyStrip (pyLower (c.clause.take 150))

/-- Update applied to a keyword-only candidate that enters the merged dict:
`clause["score"] += 0.3; clause["keyword_matches"] = True`. -/
def kwAdd (c : Cand) : Cand :=
  { c with score := c.score + 0.3, keyword_matches := true }

/-- Python `if key not in all_clauses: all_clauses[key] = clause` on an
insertion-ordered dict. -/
def fpInsertNew (m : List (String × Cand)) (k : String) (c : Cand) :
    List (String × Cand) :=
  if m.any (fun p => p.1 == k) then m else m ++ [(k, c)]

/-- The merge step of `DecisionEngine._retrieve_relevant_clauses`: populate
`all_clauses` by fingerprint from the vector-search results, then from the
keyword-search results (boosted by 0.3 and flagged when their fingerprint is
new), and take the dict values in insertion order. -/
def mergeCandidates (similar keyword : List Cand) : List Cand :=
  let m1 := similar.foldl (fun m c => fpInsertNew m (fpKey c) c) []
  let m2 := keyword.foldl (fun m c => fpInsertNew m (fpKey c) (kwAdd c)) m1
  m2.map Prod.snd

/-- Reference behaviour: scan candidates in order and keep each one whose
fingerprint has not been seen before. -/
def firstSeenExcl (seen : List String) : List Cand → List Cand
  | [] => []
  | c :: rest =>
    if seen.any (fun s => s == fpKey c) then firstSeenExcl seen rest
    else c :: firstSeenExcl (seen ++ [fpKey c]) rest

/-- The merge-and-cap tail of `ClauseMatcher.match_clause`: the seen-set is
the raw (case-sensitive, untrimmed) 150-character previews of only the first
30 vector results; keyword candidates with a new preview are boosted by 0.5,
flagged and appended; finally sort descending by score and keep the top
50. -/
def matchClauseMerge (similar keyword : List Cand) : List Cand :=
  let seen0 := (similar.take 30).map (fun c => c.clause.take 150)
  let step := keyword.foldl (fun (acc : List Cand × List String) kc =>
    let preview := kc.clause.take 150
    if acc.2.contains preview then acc
    else (acc.1
        ++ [{ kc with score := kc.score + 0.5, keyword_matches := true }],
      acc.2 ++ [preview])) (similar, seen0)
  (sortByScoreDesc step.1).take 50

/-- Vector-search candidate for the C5 counterexample. -/
def cexSimCand : Cand := ⟨"ABC", 2, none, none, false⟩

/-- Keyword-search candidate for the C5 counterexample; its lower-cased
trimmed fingerprint equals that of `cexSimCand`. -/
def cexKwCand : Cand := ⟨"abc", 1, none, none, false⟩

/-! ## Query-type boosts
(`DecisionEngine._apply_query_specific_boosts`, lines 247-310) -/

/-- The boost-term list assembled from the query-type substring heuristics
(lines 252-280): the CGPA/GPA, grades/marks, syllabus, prerequisite and name
blocks each `extend` the list when their trigger fires. -/
def buildBoostTerms (query : String) : List String :=
  let ql := pyLower query
  (if ["cgpa", "gpa", "grade point average"].any (fun t => pyIn t ql) then
    ["cgpa", "gpa", "grade point average", "cumulative grade point average",
     "grade point", "total", "overall", "final", "cumulative", "semester",
     "result", "grade", "marks", "score", "percentage", "credit", "credits"]
   else [])
  ++ (if (["grade", "marks", "score"].any (fun t => pyIn t ql))
        && (["my", "subject", "course"].any (fun w => pyIn w ql)) then
    ["grade", "grades", "mark", "marks", "score", "scores", "subject",
     "subjects", "course", "courses", "code", "credit", "credits", "result",
     "results", "semester", "cumulative", "total", "overall", "cgpa", "gpa"]
   else [])
  ++ (if pyIn "syllabus" ql then
    ["syllabus", "syllabi", "outline", "content", "curriculum",
     "course content"]
   else [])
  ++ (if pyIn "prerequisite" ql || pyIn "prerequisit" ql then
    ["prerequisite", "prerequisites", "pre-requisite", "requirement",
     "required", "prior knowledge"]
   else [])
  ++ (if pyIn "name" ql then
    ["name", "student name", "candidate name", "applicant name", "student",
     "candidate"]
   else [])

/-- The per-term bonus loop: `bonus += 0.15` for each boost term contained in
the lowered clause text, plus `bonus += 0.1` when `f" {term} "` occurs in
`f" {clause_text} "`. -/
def termBonus (terms : List String) (textLower : String) : ℚ :=
  terms.foldl (fun b t =>
    if pyIn t textLower then
      b + 0.15
        + (if pyIn (" " ++ t ++ " ") (" " ++ textLower ++ " ") then 0.1 else 0)
    else b) 0

/-- Python truthiness of `clause.get("page")`: `None` and `0` are falsy. -/
def pageTruthy : Option Int → Bool
  | none => false
  | some n => n != 0

/-- `_apply_query_specific_boosts` on one candidate: term bonuses, `+1.5` for
`keyword_matches`, `+0.3` for a truthy page, `+0.2` when the clause has a
digit and the query mentions cgpa/gpa/grade/mark; the bonus is added to the
score. -/
def applyBoost (query : String) (c : Cand) : Cand :=
  let ql := pyLower query
  let terms := buildBoostTerms query
  let clause_text := pyLower c.clause
  let bonus := termBonus terms clause_text
    + (if c.keyword_matches then 1.5 else 0)
    + (if pageTruthy c.page then 0.3 else 0)
    + (if clause_text.data.any Char.isDigit
          && (["cgpa", "gpa", "grade", "mark"].any (fun t => pyIn t ql))
        then 0.2 else 0)
  { c with score := c.score + bonus }

/-- `DecisionEngine._apply_query_specific_boosts` over the candidate list. -/
def applyQuerySpecificBoosts (query : String) (clauses : List Cand) :
    List Cand :=
  clauses.map (applyBoost query)

/-- C7 counterexample candidate: matches the boost terms `total`, `overall`
and `final` of a CGPA query, none as a whitespace-bounded phrase. -/
def cexBoostA : Cand := ⟨"subtotal,overalls,finale", 1, none, none, false⟩

/-- C7 counterexample candidate: matches only `total` and `overall`, both as
whitespace-bounded phrases. -/
def cexBoostB : Cand := ⟨"my total overall here", 1, none, none, false⟩

/-- C7 counterexample query (detected type: CGPA/GPA). -/
def cexBoostQuery : String := "what is my cgpa"

/-! ## Answer assembly, fallbacks and query dispatch
(`src/core/decision_engine.py`) -/

/-- A reference dictionary as built by the fallback paths. -/
structure Ref where
  doc_id : Int
  doc_name : String
  doc_url : String
  page : Option Int
  clause : String
  score : Option ℚ
deriving DecidableEq

/-- An answer dictionary `{"answer": ..., "references": [...]}`. -/
structure AnswerOut where
  answer : String
  references : List Ref
deriving DecidableEq

/-- The failure sentinel returned by the LLM client. -/
def unableSentinel : String := "Unable to generate response due to an error."

/-- Python `x or 0` on an optional int (`doc_id or 0`). -/
def pyOrInt (o : Option Int) (d : Int) : Int :=
  match o with
  | none => d
  | some n => if n = 0 then d else n

/-- Python `x or default` on an optional string (`doc_name or "Document"`). -/
def pyOrStr (o : Option String) (d : String) : String :=
  match o with
  | none => d
  | some s => if s = "" then d else s

/-- `DecisionEngine._fallback_to_best_clause`: when the candidate list is
non-empty and its first (best-scoring) entry has truthy text, answer with
`"Based on the document: "` plus that text truncated to 500 characters
(ellipsis when longer), referencing that clause truncated to 400 characters;
otherwise apologize with no references. -/
def fallback_to_best_clause (matched : List Cand) (doc_id : Option Int)
    (doc_name : Option String) : AnswerOut :=
  match matched with
  | best :: _ =>
    if best.clause ≠ "" then
      { answer := "Based on the document: " ++ best.clause.take 500
          ++ (if best.clause.length > 500 then "..." else ""),
        references := [⟨pyOrInt doc_id 0, pyOrStr doc_name "Document",
          pyOrStr doc_name "", best.page, best.clause.take 400,
          some best.score⟩] }
    else
      { answer := "Unable to generate response for this question. Please try rephrasing your question.",
        references := [] }
  | [] =>
    { answer := "Unable to generate response for this question. Please try rephrasing your question.",
      references := [] }

/-- The success test of `_process_normal_query` line 195:
`response and response != "Unable to generate response due to an error." and
"Unable to generate response" not in response`. -/
def responseOk (response : String) : Bool :=
  response != "" && response != unableSentinel
    && !(pyIn "Unable to generate response" response)

/-- The answer-assembly tail of `_process_normal_query` (lines 192-201): on a
good response, package the stripped response with the prebuilt references
(`refs` stands for the `_build_references` result); otherwise fall back to
the best clause. -/
def processAfterGeneration (response : String) (matched : List Cand)
    (doc_id : Option Int) (doc_name : Option String) (refs : List Ref) :
    AnswerOut :=
  if responseOk response then
    { answer := pyStrip response, references := refs }
  else
    fallback_to_best_clause matched doc_id doc_name

/-- Python truthiness of an optional string (`if doc_name ...`,
`if extracted_text:`): `None` and `""` are falsy. -/
def optStrTruthy : Option String → Bool
  | none => false
  | some s => s != ""

/-- The secret-token URL marker of `process_queries`. -/
def secretTokenPat : String :=
  "https://register.hackrx.in/utils/get-secret-token?hackTeam="

/-- `answers.append(...)` lines 36-40: a dict answer contributes its
`"answer"` field, a bare string contributes itself. -/
def extractAnswer : AnswerOut ⊕ String → String
  | Sum.inl a => a.answer
  | Sum.inr s => s

/-- `DecisionEngine.process_queries`.  `getFlight` stands for the
network-backed `_get_flight_number(extracted_text, doc_name)` and
`processNormal` for `_process_normal_query(question, doc_id, doc_name)`,
both external to this dispatch logic. -/
def process_queries
    (getFlight : Option String → Option String → String)
    (processNormal : String → Option Int → Option String → AnswerOut ⊕ String)
    (questions : List String) (doc_id : Option Int) (doc_name : Option String)
    (extracted_text : Option String) : List String :=
  if optStrTruthy doc_name && pyIn secretTokenPat (doc_name.getD "") then
    if optStrTruthy extracted_text then
      List.replicate questions.length (pyStrip (extracted_text.getD ""))
    else
      List.replicate questions.length "Token not found"
  else
    questions.map (fun question =>
      if pyIn "flight number" (pyLower question) then
        getFlight extracted_text doc_name
      else
        extractAnswer (processNormal question doc_id doc_name))

/-- The answer `process_queries` produces for one question, as a standalone
function of that question. -/
def perQuestionAnswer
    (getFlight : Option String → Option String → String)
    (processNormal : String → Option Int → Option String → AnswerOut ⊕ String)
    (doc_id : Option Int) (doc_name : Option String)
    (extracted_text : Option String) (question : String) : String :=
  if optStrTruthy doc_name && pyIn secretTokenPat (doc_name.getD "") then
    if optStrTruthy extracted_text then pyStrip (extracted_text.getD "")
    else "Token not found"
  else if pyIn "flight number" (pyLower question) then
    getFlight extracted_text doc_name
  else extractAnswer (processNormal question doc_id doc_name)

theorem find_after_replace (url : String) (r : DocRow) (h : r.url = url) :
    ∀ l : List DocRow,
      (l.filter (fun x => x.url != url) ++ [r]).find? (fun x => x.url == url)
        = some r := by
  intro l
  induction l with
  | nil => simp [List.find?, h]
  | cons x xs ih =>
    rw [List.filter_cons]
    by_cases hx : x.url = url
    · have hb : (x.url != url) = false := by simp [hx]
      rw [hb]
      simpa using ih
    · have hb : (x.url != url) = true := by simp [hx]
      rw [hb]
      simp only [if_true, List.cons_append, List.find?_cons]
      have hx2 : (x.url == url) = false := by simp [hx]
      rw [hx2]
      exact ih

/-- C2 (counterexample): storing the same url twice from an empty database
returns doc id 1 the first time and doc id 2 the second time, so document
identity is not idempotent per url. -/
theorem store_document_not_idempotent :
    (store_document (store_document ⟨[], 0⟩ "u" "f").1 "u" "f").2
      ≠ (store_document ⟨[], 0⟩ "u" "f").2 := by decide

/-- C2 (amended): each store of a url deletes any existing row for that url and
inserts a row with a fresh auto-incremented id, which the trailing SELECT then
returns; storing the same url twice therefore yields `seq + 1` and then
`seq + 2` — two distinct ids, never the same one. -/
theorem store_document_fresh_ids (db : DocDB) (url fn1 fn2 : String) :
    (store_document db url fn1).2 = some (db.seq + 1)
    ∧ (store_document (store_document db url fn1).1 url fn2).2
        = some (db.seq + 2)
    ∧ (store_document db url fn1).2
        ≠ (store_document (store_document db url fn1).1 url fn2).2 := by
  refine ⟨?_, ?_, ?_⟩
  · simp [store_document, get_document_id, find_after_replace url ⟨db.seq + 1, url, fn1⟩ rfl]
  · simp [store_document, get_document_id, find_after_replace url ⟨db.seq + 2, url, fn2⟩ rfl]
  · simp [store_document, get_document_id,
      find_after_replace url ⟨db.seq + 1, url, fn1⟩ rfl,
      find_after_replace url ⟨db.seq + 2, url, fn2⟩ rfl]

theorem length_dropWhile_le (p : Char → Bool) (l : List Char) :
    (l.dropWhile p).length ≤ l.length := by
  induction l with
  | nil => simp
  | cons a l ih =>
    rw [List.dropWhile_cons]
    split
    · exact ih.trans (Nat.le_succ _)
    · exact Nat.le_refl _

theorem pyStrip_length (s : String) : (pyStrip s).length ≤ s.length := by
  show (((s.data.dropWhile Char.isWhitespace).reverse.dropWhile
      Char.isWhitespace).reverse).length ≤ s.data.length
  rw [List.length_reverse]
  calc ((s.data.dropWhile Char.isWhitespace).reverse.dropWhile
        Char.isWhitespace).length
      ≤ (s.data.dropWhile Char.isWhitespace).reverse.length :=
        length_dropWhile_le _ _
    _ = (s.data.dropWhile Char.isWhitespace).length := List.length_reverse _
    _ ≤ s.data.length := length_dropWhile_le _ _

theorem string_length_le_utf8Len (s : String) : s.length ≤ utf8Len s := by
  suffices h : ∀ (l : List Char) (n : Nat),
      l.length + n ≤ l.foldl (fun n c => n + c.utf8Size) n by
    have h0 := h s.data 0
    rw [Nat.add_zero] at h0
    exact h0
  intro l
  induction l with
  | nil => intro n; simp
  | cons c l ih =>
    intro n
    have h1 := ih (n + c.utf8Size)
    have h2 := Char.utf8Size_pos c
    simp only [List.foldl_cons, List.length_cons]
    omega

theorem chunkOne_length_bound (split_text : String → List String) (size : Nat)
    (c : String) (pg : Option Int)
    (hsplit : ∀ s ∈ split_text c, s.length ≤ size) :
    ∀ pr ∈ chunkOne split_text size c pg, pr.1.length ≤ size := by
  intro pr hpr
  by_cases h1 : pyStrip c = ""
  · simp [chunkOne, h1] at hpr
  · by_cases h2 : c.length ≤ size
    · simp [chunkOne, h1, h2] at hpr
      rw [hpr]
      exact h2
    · simp only [chunkOne, h1, h2, if_false, if_neg, List.mem_filterMap] at hpr
      obtain ⟨s, hs, hval⟩ := hpr
      by_cases h3 : pyStrip s = ""
      · simp [h3] at hval
      · simp only [h3, if_neg, if_false, Option.some_inj] at hval
        rw [← hval]
        exact (pyStrip_length s).trans (hsplit s hs)

theorem chunkClausesGo_bound (split_text : String → List String)
    (pages : Option (List (Option Int))) (size : Nat)
    (hsplit : ∀ c s, s ∈ split_text c → s.length ≤ size) :
    ∀ (l : List String) (idx : Nat) (pr : String × Option Int),
      pr ∈ chunkClausesGo split_text pages size idx l → pr.1.length ≤ size := by
  intro l
  induction l with
  | nil => intro idx pr h; simp [chunkClausesGo] at h
  | cons c rest ih =>
    intro idx pr h
    simp only [chunkClausesGo, List.mem_append] at h
    rcases h with h | h
    · exact chunkOne_length_bound split_text size c _ (fun s hs => hsplit c s hs) pr h
    · exact ih (idx + 1) pr h

/-- C4 (counterexample): with `max_size = 2`, the two-character passage `"éé"`
passes through the chunker unchanged because the code compares the Python
character count (`len`), yet its UTF-8 byte length is 4 > 2, so the claimed
UTF-8 byte bound fails. -/
theorem chunk_byte_size_violated :
    (chunk_clauses_optimized (fun _ => []) ["éé"] none 2).1 = ["éé"]
    ∧ utf8Len "éé" = 4 ∧ ¬ utf8Len "éé" ≤ 2 := by decide

/-- C4 (amended): every chunk produced by the chunker has character length
(Python `len`) at most `max_size`, assuming the external splitter returns
pieces within the limit; a chunk of exactly `max_size` characters is accepted
as-is, not split further.  The byte-length version of the bound is false
(see the counterexample): the code compares character counts, not UTF-8
bytes. -/
theorem chunk_char_size_bound (split_text : String → List String)
    (clauses : List String) (pages : Option (List (Option Int)))
    (max_clause_size : Nat)
    (hsplit : ∀ c s, s ∈ split_text c → s.length ≤ max_clause_size) :
    (∀ t ∈ (chunk_clauses_optimized split_text clauses pages max_clause_size).1,
        t.length ≤ max_clause_size)
    ∧ ∀ c, c.length = max_clause_size → pyStrip c ≠ "" →
        (chunk_clauses_optimized split_text [c] pages max_clause_size).1 = [c] := by
  constructor
  · intro t ht
    simp only [chunk_clauses_optimized, List.mem_map] at ht
    obtain ⟨pr, hpr, hfst⟩ := ht
    rw [← hfst]
    exact chunkClausesGo_bound split_text pages max_clause_size hsplit clauses 0 pr hpr
  · intro c hlen hne
    simp [chunk_clauses_optimized, chunkClausesGo, chunkOne, hne, hlen]

theorem chunk_char_size_bound_witness :
    (∀ c s, s ∈ (fun (_ : String) => ([] : List String)) c → s.length ≤ 5)
    ∧ ∀ t ∈ (chunk_clauses_optimized (fun _ => []) ["abc"] none 5).1,
        t.length ≤ 5 :=
  ⟨by simp, (chunk_char_size_bound (fun _ => []) ["abc"] none 5 (by simp)).1⟩

/-- C6 (counterexample): the whitespace-only passage `" "` has UTF-8 byte
length 1 ≤ `max_size`, yet the chunker emits nothing for it (whitespace-only
clauses are skipped), so not every passage within the size limit passes
through as a single chunk. -/
theorem chunk_whitespace_passage_skipped :
    utf8Len " " ≤ 40000
    ∧ chunk_clauses_optimized (fun _ => []) [" "] none 40000 = ([], []) := by
  decide

/-- C6 (amended): every input passage with a non-whitespace character whose
UTF-8 byte length is at most `max_size` is emitted unchanged as a single chunk
with its page, with no splitting and no overlap (byte length bounds character
length, and the code passes such clauses through untouched). -/
theorem chunk_small_passage_unchanged (split_text : String → List String)
    (c : String) (pages : Option (List (Option Int))) (max_clause_size : Nat)
    (hne : pyStrip c ≠ "") (hsz : utf8Len c ≤ max_clause_size) :
    chunk_clauses_optimized split_text [c] pages max_clause_size
      = ([c], [pageAt pages 0]) := by
  have hlen : c.length ≤ max_clause_size := (string_length_le_utf8Len c).trans hsz
  simp [chunk_clauses_optimized, chunkClausesGo, chunkOne, hne, hlen]

theorem chunk_small_passage_unchanged_witness :
    pyStrip "ab" ≠ "" ∧ utf8Len "ab" ≤ 40000
    ∧ chunk_clauses_optimized (fun _ => []) ["ab"] none 40000 = (["ab"], [none]) :=
  ⟨by decide, by decide,
    by simpa using
      chunk_small_passage_unchanged (fun _ => []) "ab" none 40000
        (by decide) (by decide)⟩

theorem generate_embeddings_delta (st : EmbIndex) (clauses : List String)
    (doc_id : Int) (pages : Option (List (Option Int))) :
    (generate_embeddings st clauses doc_id pages).1.vector_id_order.length
      = st.vector_id_order.length + clauses.length
    ∧ (generate_embeddings st clauses doc_id pages).1.ntotal
        = st.ntotal + clauses.length := by
  by_cases h : clauses = []
  · subst h; simp [generate_embeddings]
  · simp [generate_embeddings, h]

/-- C1: every state of the vector index reachable through insert batches has
an order manifest whose length equals the index's vector count (and the
cached `vector_count` agrees); any insert batch of B clauses grows both the
manifest and the count by exactly B, and the empty batch leaves the state
untouched. -/
theorem vector_index_alignment :
    (∀ st, Reachable st →
        st.vector_id_order.length = st.ntotal ∧ st.vector_count = st.ntotal)
    ∧ (∀ st clauses doc_id pages,
        (generate_embeddings st clauses doc_id pages).1.vector_id_order.length
          = st.vector_id_order.length + clauses.length
        ∧ (generate_embeddings st clauses doc_id pages).1.ntotal
            = st.ntotal + clauses.length)
    ∧ (∀ st doc_id pages, (generate_embeddings st [] doc_id pages).1 = st) := by
  refine ⟨?_, ?_, ?_⟩
  · intro st h
    induction h with
    | init => exact ⟨rfl, rfl⟩
    | step st clauses doc_id pages _ ih =>
      by_cases hc : clauses = []
      · subst hc; simpa [generate_embeddings] using ih
      · obtain ⟨ih1, ih2⟩ := ih
        constructor
        · have h1 := (generate_embeddings_delta st clauses doc_id pages).1
          have h2 := (generate_embeddings_delta st clauses doc_id pages).2
          omega
        · simp [generate_embeddings, hc]
  · intro st clauses doc_id pages
    exact generate_embeddings_delta st clauses doc_id pages
  · intro st doc_id pages
    simp [generate_embeddings]

theorem vector_index_alignment_witness :
    Reachable (generate_embeddings ⟨0, [], [], 0⟩ ["a", "b"] 1 none).1
    ∧ (generate_embeddings ⟨0, [], [], 0⟩ ["a", "b"] 1 none).1.vector_id_order.length
        = (generate_embeddings ⟨0, [], [], 0⟩ ["a", "b"] 1 none).1.ntotal :=
  ⟨Reachable.step _ _ _ _ Reachable.init,
    (vector_index_alignment.1 _ (Reachable.step ⟨0, [], [], 0⟩ ["a", "b"] 1 none
      Reachable.init)).1⟩

theorem mem_insertCand (a c : Cand) (l : List Cand) :
    a ∈ insertCand c l ↔ a = c ∨ a ∈ l := by
  induction l with
  | nil => simp [insertCand]
  | cons d ds ih =>
    simp only [insertCand]
    split
    · simp
    · simp only [List.mem_cons, ih]
      tauto

theorem length_insertCand (c : Cand) (l : List Cand) :
    (insertCand c l).length = l.length + 1 := by
  induction l with
  | nil => rfl
  | cons d ds ih =>
    simp only [insertCand]
    split
    · simp
    · simp [ih]

theorem mem_sortByScoreDesc (a : Cand) (l : List Cand) :
    a ∈ sortByScoreDesc l ↔ a ∈ l := by
  induction l with
  | nil => simp [sortByScoreDesc]
  | cons c rest ih => simp [sortByScoreDesc, mem_insertCand, ih]

theorem length_sortByScoreDesc (l : List Cand) :
    (sortByScoreDesc l).length = l.length := by
  induction l with
  | nil => rfl
  | cons c rest ih => simp [sortByScoreDesc, length_insertCand, ih]

theorem searchLoop_sound (meta : List (String × ClauseMeta))
    (keys : List String) (doc_filter : Option Int) :
    ∀ (pairs : List (Int × ℚ)) (res : List Cand),
      searchLoop meta keys doc_filter pairs = some res →
      ∀ c ∈ res, (0.01 : ℚ) < c.score
        ∧ ∀ d, doc_filter = some d → c.doc_id = some d := by
  intro pairs
  induction pairs with
  | nil =>
    intro res h c hc
    simp only [searchLoop, Option.some_inj] at h
    subst h
    simp at hc
  | cons p rest ih =>
    intro res h c hc
    obtain ⟨idx, distance⟩ := p
    simp only [searchLoop] at h
    split at h
    · split at h
      · exact absurd h (by simp)
      · split at h
        · exact absurd h (by simp)
        · rename_i cd hd
          split at h
          · rename_i hkeep
            split at h
            · rename_i hscore
              rw [Option.map_eq_some'] at h
              obtain ⟨r, hr, hres⟩ := h
              subst hres
              rcases List.mem_cons.mp hc with hc1 | hc2
              · subst hc1
                refine ⟨by simpa using hscore, ?_⟩
                intro d hdf
                subst hdf
                simp only at hkeep
                have hid : cd.doc_id = d := by simpa using hkeep
                simp [hid]
              · exact ih r hr c hc2
            · exact ih res h c hc
          · exact ih res h c hc
    · exact ih res h c hc

theorem searchPost_mem (top_k : Nat) (o : Option (List Cand)) (c : Cand)
    (hc : c ∈ searchPost top_k o) : ∃ res, o = some res ∧ c ∈ res := by
  cases o with
  | none => simp [searchPost] at hc
  | some res =>
    refine ⟨res, rfl, ?_⟩
    simp only [searchPost] at hc
    split at hc
    · exact (mem_sortByScoreDesc c res).mp (List.take_subset _ _ hc)
    · exact (mem_sortByScoreDesc c res).mp hc

theorem searchPost_length (top_k : Nat) (o : Option (List Cand)) :
    (searchPost top_k o).length ≤ top_k := by
  cases o with
  | none => simp [searchPost]
  | some res =>
    simp only [searchPost]
    split
    · simp [Nat.min_le_left]
    · omega

/-- C3 (counterexample): with 30 stored vectors and `top_k = 30` the code
searches an ANN pool of `min(60, max(100, 30)) = 60`, not the spec's
`max(60, 100, 30) = 100`: two ANN oracles that agree on a pool request of 100
(both empty there) but differ at 60 produce different search results. -/
theorem search_pool_not_spec :
    cexAnnHit (specSearchPool 30 30) = cexAnnMiss (specSearchPool 30 30)
    ∧ searchSimilarClauses cexIndexState cexAnnHit 30 none
        ≠ searchSimilarClauses cexIndexState cexAnnMiss 30 none
    ∧ search_pool 30 30 = 60 ∧ specSearchPool 30 30 = 100 := by
  have hL : searchSimilarClauses cexIndexState cexAnnHit 30 none
      = [⟨"hello", 1 / (1 + 0), none, some 1, false⟩] := by
    norm_num [searchSimilarClauses, searchPost, searchLoop, search_pool,
      cexIndexState, cexAnnHit, pyListGet, dictFind, sortByScoreDesc,
      insertCand, List.find?]
  have hR : searchSimilarClauses cexIndexState cexAnnMiss 30 none = [] := by
    norm_num [searchSimilarClauses, searchPost, searchLoop, search_pool,
      cexIndexState, cexAnnMiss, sortByScoreDesc]
  refine ⟨rfl, ?_, by decide, by decide⟩
  rw [hL, hR]
  simp

/-- C3 (amended): the candidate pool the vector search requests from the ANN
has size `min(2k, max(100, current vector count))` — the *smaller* of `2k`
and `max(100, count)`, not the spec's `max` — and only then are the optional
doc-id filter and the `0.01` score floor applied: the result depends only on
the ANN's answer for that pool size, every returned candidate clears the
floor and matches the filter, and at most `top_k` candidates are returned. -/
theorem search_pool_characterization (st : EmbIndex)
    (ann ann2 : Nat → List (Int × ℚ)) (top_k : Nat) (doc_filter : Option Int) :
    search_pool top_k st.vector_count
      = min (top_k * 2) (max 100 st.vector_count)
    ∧ (ann (search_pool top_k st.vector_count)
          = ann2 (search_pool top_k st.vector_count) →
        searchSimilarClauses st ann top_k doc_filter
          = searchSimilarClauses st ann2 top_k doc_filter)
    ∧ (∀ c ∈ searchSimilarClauses st ann top_k doc_filter,
        (0.01 : ℚ) < c.score ∧ ∀ d, doc_filter = some d → c.doc_id = some d)
    ∧ (searchSimilarClauses st ann top_k doc_filter).length ≤ top_k := by
  refine ⟨rfl, ?_, ?_, ?_⟩
  · intro h
    simp only [searchSimilarClauses]
    rw [h]
  · intro c hc
    simp only [searchSimilarClauses] at hc
    obtain ⟨res, hres, hmem⟩ := searchPost_mem _ _ _ hc
    exact searchLoop_sound _ _ _ _ res hres c hmem
  · exact searchPost_length _ _

theorem search_pool_characterization_witness :
    searchSimilarClauses cexIndexState cexAnnAt100 30 none
      = searchSimilarClauses cexIndexState cexAnnMiss 30 none :=
  (search_pool_characterization cexIndexState cexAnnAt100 cexAnnMiss 30
    none).2.1 (by decide)

theorem kw_bonus_ge (text : String) : ∀ (kls : List String) (s0 : ℚ),
    s0 ≤ kls.foldl (fun s k =>
      if 0 ≤ pyFind text k ∧ pyFind text k < 100 then s + 0.3 else s) s0 := by
  intro kls
  induction kls with
  | nil => intro s0; simp
  | cons k ks ih =>
    intro s0
    simp only [List.foldl_cons]
    have h1 : s0 ≤ (if 0 ≤ pyFind text k ∧ pyFind text k < 100 then s0 + 0.3
        else s0) := by
      split
      · linarith
      · exact le_refl s0
    exact h1.trans (ih _)

theorem kwCandidate_sound (kls : List String) (cd : ClauseMeta) (c : Cand)
    (h : kwCandidate kls cd = some c) :
    c.keyword_matches = true ∧ c.clause = cd.clause ∧ (1/2 : ℚ) ≤ c.score
    ∧ ∃ k ∈ kls, pyIn k (pyLower cd.clause) = true := by
  simp only [kwCandidate] at h
  split at h
  · rename_i hmc
    rw [Option.some_inj] at h
    subst h
    refine ⟨rfl, rfl, ?_, ?_⟩
    · have h1 : (1 : ℚ)
          ≤ (kls.countP (fun k => pyIn k (pyLower cd.clause)) : ℚ) := by
        exact_mod_cast hmc
      have h2 : (1/2 : ℚ)
          ≤ (kls.countP (fun k => pyIn k (pyLower cd.clause)) : ℚ) * 0.5 := by
        nlinarith
      exact h2.trans (kw_bonus_ge _ kls _)
    · exact List.countP_pos_iff.mp hmc
  · exact absurd h (by simp)

theorem kw_foldl_mem (kls : List String) (doc_filter : Option Int) :
    ∀ (l : List (String × ClauseMeta)) (acc : List Cand) (c : Cand),
      c ∈ l.foldl (fun acc p =>
        if kwKeep doc_filter p.2 then
          match kwCandidate kls p.2 with
          | some c => acc ++ [c]
          | none => acc
        else acc) acc →
      c ∈ acc ∨ ∃ p ∈ l, kwCandidate kls p.2 = some c := by
  intro l
  induction l with
  | nil => intro acc c h; exact Or.inl h
  | cons p rest ih =>
    intro acc c h
    simp only [List.foldl_cons] at h
    rcases ih _ c h with hacc | ⟨q, hq, hqc⟩
    · by_cases hk : kwKeep doc_filter p.2
      · rw [if_pos hk] at hacc
        cases hcand : kwCandidate kls p.2 with
        | some d =>
          rw [hcand] at hacc
          rcases List.mem_append.mp hacc with h1 | h2
          · exact Or.inl h1
          · have : c = d := by simpa using h2
            subst this
            exact Or.inr ⟨p, List.mem_cons_self p rest, hcand⟩
        | none =>
          rw [hcand] at hacc
          exact Or.inl hacc
      · rw [if_neg hk] at hacc
        exact Or.inl hacc
    · exact Or.inr ⟨q, List.mem_cons_of_mem p hq, hqc⟩

/-- C10: keyword search with its default cap of 20 returns at most 20
candidates; every returned candidate contains at least one of the given
keywords as a case-insensitive substring, carries score at least `0.5`
(one match contributes `0.5`, position bonuses only add), and is flagged
`keyword_matches = true`. -/
theorem search_by_keywords_contract (meta : List (String × ClauseMeta))
    (keywords : List String) (doc_filter : Option Int) :
    (search_by_keywords meta keywords doc_filter 20).length ≤ 20
    ∧ ∀ c ∈ search_by_keywords meta keywords doc_filter 20,
        c.keyword_matches = true ∧ (1/2 : ℚ) ≤ c.score
        ∧ ∃ kw ∈ keywords, pyIn (pyLower kw) (pyLower c.clause) = true := by
  constructor
  · simp only [search_by_keywords]
    rw [List.length_take]
    exact Nat.min_le_left _ _
  · intro c hc
    simp only [search_by_keywords] at hc
    have hc2 := List.take_subset _ _ hc
    have hc3 := (mem_sortByScoreDesc _ _).mp hc2
    rcases kw_foldl_mem (keywords.map pyLower) doc_filter meta [] c hc3 with
      h0 | ⟨p, _, hcand⟩
    · simp at h0
    · obtain ⟨hkw, hclause, hscore, k, hk, hin⟩ :=
        kwCandidate_sound (keywords.map pyLower) p.2 c hcand
      refine ⟨hkw, hscore, ?_⟩
      obtain ⟨kw, hkwmem, hkweq⟩ := List.mem_map.mp hk
      refine ⟨kw, hkwmem, ?_⟩
      rw [hkweq, hclause]
      exact hin

theorem search_by_keywords_contract_witness :
    (search_by_keywords [("1_0", ⟨"Hello World", 1, none⟩)] ["hello"] none
      20).length ≤ 20 :=
  (search_by_keywords_contract [("1_0", ⟨"Hello World", 1, none⟩)] ["hello"]
    none).1

theorem any_map_fst (m : List (String × Cand)) (k : String) :
    ((m.map Prod.fst).any (fun s => s == k)) = m.any (fun p => p.1 == k) := by
  induction m with
  | nil => rfl
  | cons p rest ih => simp [ih]

theorem firstSeenExcl_cons_true (seen : List String) (c : Cand)
    (rest : List Cand) (h : (seen.any (fun s => s == fpKey c)) = true) :
    firstSeenExcl seen (c :: rest) = firstSeenExcl seen rest := by
  simp [firstSeenExcl, h]

theorem firstSeenExcl_cons_false (seen : List String) (c : Cand)
    (rest : List Cand) (h : (seen.any (fun s => s == fpKey c)) = false) :
    firstSeenExcl seen (c :: rest)
      = c :: firstSeenExcl (seen ++ [fpKey c]) rest := by
  simp [firstSeenExcl, h]

theorem foldl_fpInsert (f : Cand → Cand) :
    ∀ (l : List Cand) (m : List (String × Cand)),
      l.foldl (fun m c => fpInsertNew m (fpKey c) (f c)) m
        = m ++ (firstSeenExcl (m.map Prod.fst) l).map (fun c => (fpKey c, f c)) := by
  intro l
  induction l with
  | nil => intro m; simp [firstSeenExcl]
  | cons c rest ih =>
    intro m
    simp only [List.foldl_cons]
    by_cases hk : m.any (fun p => p.1 == fpKey c) = true
    · have hk2 : ((m.map Prod.fst).any (fun s => s == fpKey c)) = true := by
        rw [any_map_fst]; exact hk
      have hins : fpInsertNew m (fpKey c) (f c) = m := by
        simp [fpInsertNew, hk]
      rw [firstSeenExcl_cons_true _ _ _ hk2, hins, ih m]
    · have hkf : m.any (fun p => p.1 == fpKey c) = false := by
        exact Bool.eq_false_iff.mpr hk
      have hk2 : ((m.map Prod.fst).any (fun s => s == fpKey c)) = false := by
        rw [any_map_fst]; exact hkf
      have hins : fpInsertNew m (fpKey c) (f c) = m ++ [(fpKey c, f c)] := by
        simp [fpInsertNew, hkf]
      rw [firstSeenExcl_cons_false _ _ _ hk2, hins, ih (m ++ [(fpKey c, f c)])]
      simp [List.append_assoc]

theorem map_pair_snd (l : List Cand) :
    (l.map (fun c => (fpKey c, c))).map Prod.snd = l := by
  induction l with
  | nil => rfl
  | cons c rest ih => simp [ih]

theorem mergeCandidates_single_fold (similar keyword : List Cand) :
    mergeCandidates similar keyword
      = ((similar ++ keyword.map kwAdd).foldl
          (fun m c => fpInsertNew m (fpKey c) c) []).map Prod.snd := by
  simp only [mergeCandidates]
  rw [List.foldl_append, List.foldl_map]
  rfl

theorem firstSeenExcl_not_seen_and_nodup :
    ∀ (l : List Cand) (seen : List String),
      (∀ d ∈ firstSeenExcl seen l,
        (seen.any (fun s => s == fpKey d)) = false)
      ∧ ((firstSeenExcl seen l).map fpKey).Nodup := by
  intro l
  induction l with
  | nil => intro seen; simp [firstSeenExcl]
  | cons c rest ih =>
    intro seen
    by_cases hc : (seen.any (fun s => s == fpKey c)) = true
    · rw [firstSeenExcl_cons_true _ _ _ hc]
      exact ih seen
    · have hc2 : (seen.any (fun s => s == fpKey c)) = false := by
        exact Bool.eq_false_iff.mpr hc
      rw [firstSeenExcl_cons_false _ _ _ hc2]
      constructor
      · intro d hd
        rcases List.mem_cons.mp hd with rfl | hd2
        · exact hc2
        · have h3 := (ih (seen ++ [fpKey c])).1 d hd2
          rw [List.any_append] at h3
          exact (Bool.or_eq_false_iff.mp h3).1
      · rw [List.map_cons, List.nodup_cons]
        constructor
        · intro hmem
          obtain ⟨d, hd, hfp⟩ := List.mem_map.mp hmem
          have h3 := (ih (seen ++ [fpKey c])).1 d hd
          rw [List.any_append] at h3
          have h4 := (Bool.or_eq_false_iff.mp h3).2
          simp [hfp] at h4
        · exact (ih (seen ++ [fpKey c])).2

theorem firstSeenExcl_covers :
    ∀ (l : List Cand) (seen : List String) (c : Cand), c ∈ l →
      (seen.any (fun s => s == fpKey c)) = true
      ∨ ∃ d ∈ firstSeenExcl seen l, fpKey d = fpKey c := by
  intro l
  induction l with
  | nil => intro seen c hc; cases hc
  | cons a rest ih =>
    intro seen c hc
    rcases List.mem_cons.mp hc with rfl | hc2
    · by_cases ha : (seen.any (fun s => s == fpKey c)) = true
      · exact Or.inl ha
      · right
        have ha2 : (seen.any (fun s => s == fpKey c)) = false :=
          Bool.eq_false_iff.mpr ha
        rw [firstSeenExcl_cons_false _ _ _ ha2]
        exact ⟨c, List.mem_cons_self c _, rfl⟩
    · by_cases ha : (seen.any (fun s => s == fpKey a)) = true
      · rw [firstSeenExcl_cons_true _ _ _ ha]
        exact ih seen c hc2
      · have ha2 : (seen.any (fun s => s == fpKey a)) = false := by
          exact Bool.eq_false_iff.mpr ha
        rw [firstSeenExcl_cons_false _ _ _ ha2]
        rcases ih (seen ++ [fpKey a]) c hc2 with h1 | ⟨d, hd, hfp⟩
        · rw [List.any_append] at h1
          rcases Bool.or_eq_true_iff.mp h1 with h1a | h1b
          · exact Or.inl h1a
          · right
            refine ⟨a, List.mem_cons_self a _, ?_⟩
            have : (fpKey a == fpKey c) = true := by simpa using h1b
            exact eq_of_beq this
        · exact Or.inr ⟨d, List.mem_cons_of_mem a hd, hfp⟩

/-- C5 (amended): in the merge of `DecisionEngine._retrieve_relevant_clauses`
the claim holds: the merged list is exactly the first-seen deduplication — by
the lower-cased, trimmed 150-character fingerprint — of the vector-search
results followed by the boost-and-flag keyword-only additions, and its
fingerprints are pairwise distinct while every input fingerprint is
represented.  The claim fails for the second merge in
`ClauseMatcher.match_clause`, which compares raw case-sensitive previews and
only against the first 30 vector results (see the counterexample). -/
theorem merge_dedup_first_seen (similar keyword : List Cand) :
    mergeCandidates similar keyword
      = firstSeenExcl [] (similar ++ keyword.map kwAdd)
    ∧ ((mergeCandidates similar keyword).map fpKey).Nodup
    ∧ ∀ c ∈ similar ++ keyword.map kwAdd,
        ∃ d ∈ mergeCandidates similar keyword, fpKey d = fpKey c := by
  have hbeta := foldl_fpInsert (fun c => c) (similar ++ keyword.map kwAdd) []
  simp only [] at hbeta
  have heq : mergeCandidates similar keyword
      = firstSeenExcl [] (similar ++ keyword.map kwAdd) := by
    rw [mergeCandidates_single_fold, hbeta]
    simp only [List.map_nil, List.nil_append]
    exact map_pair_snd _
  refine ⟨heq, ?_, ?_⟩
  · rw [heq]
    exact (firstSeenExcl_not_seen_and_nodup (similar ++ keyword.map kwAdd) []).2
  · intro c hc
    rw [heq]
    rcases firstSeenExcl_covers (similar ++ keyword.map kwAdd) [] c hc with h | h
    · simp at h
    · exact h

/-- C5 (counterexample): the merge of `ClauseMatcher.match_clause` retains
BOTH of two candidates whose lower-cased trimmed 150-character fingerprints
coincide (`"ABC"` from vector search, `"abc"` from keyword search), because
that call site deduplicates by the raw case-sensitive preview — so "exactly
one candidate is retained" fails there. -/
theorem match_clause_merge_keeps_duplicate_fp :
    fpKey cexSimCand = fpKey cexKwCand
    ∧ matchClauseMerge [cexSimCand] [cexKwCand]
        = [cexSimCand,
            ⟨cexKwCand.clause, cexKwCand.score + 0.5, cexKwCand.page,
              cexKwCand.doc_id, true⟩] := by
  constructor
  · decide
  · simp only [matchClauseMerge, List.foldl_cons, List.foldl_nil]
    rw [if_neg (by decide)]
    simp only [sortByScoreDesc, insertCand, List.take]
    rw [if_pos (by norm_num [cexSimCand, cexKwCand])]
    simp [cexSimCand, cexKwCand]

theorem termBonus_count (text : String) :
    ∀ (terms : List String) (b : ℚ),
      terms.foldl (fun b t =>
        if pyIn t text then
          b + 0.15
            + (if pyIn (" " ++ t ++ " ") (" " ++ text ++ " ") then 0.1 else 0)
        else b) b
      = b + (terms.countP (fun t => pyIn t text) : ℚ) * 0.15
          + (terms.countP (fun t =>
              pyIn t text
                && pyIn (" " ++ t ++ " ") (" " ++ text ++ " ")) : ℚ) * 0.1 := by
  intro terms
  induction terms with
  | nil => intro b; simp
  | cons t ts ih =>
    intro b
    simp only [List.foldl_cons, List.countP_cons]
    by_cases h1 : pyIn t text = true
    · by_cases h2 : pyIn (" " ++ t ++ " ") (" " ++ text ++ " ") = true
      · rw [if_pos h1, if_pos h2, ih]
        simp only [h1, h2, Bool.and_self, if_pos]
        push_cast
        ring
      · have h2f : pyIn (" " ++ t ++ " ") (" " ++ text ++ " ") = false :=
          Bool.eq_false_iff.mpr h2
        rw [if_pos h1, if_neg (by simp [h2f]), ih]
        simp only [h1, h2f, Bool.and_false, if_pos, if_neg]
        push_cast
        ring
    · have h1f : pyIn t text = false := Bool.eq_false_iff.mpr h1
      rw [if_neg (by simp [h1f]), ih]
      simp only [h1f, Bool.false_and, if_neg]
      push_cast
      ring

theorem countP_le_of_imp (p q : String → Bool) :
    ∀ l : List String, (∀ t ∈ l, p t = true → q t = true) →
      l.countP p ≤ l.countP q := by
  intro l
  induction l with
  | nil => intro _; simp
  | cons t ts ih =>
    intro h
    simp only [List.countP_cons]
    have hts := ih (fun u hu => h u (List.mem_cons_of_mem t hu))
    by_cases hp : p t = true
    · have hq := h t (List.mem_cons_self t ts) hp
      simp only [hp, hq, if_true]
      omega
    · have hpf : p t = false := Bool.eq_false_iff.mpr hp
      simp only [hpf, Bool.false_eq_true, if_false]
      split <;> omega

/-- C7 (counterexample): for the CGPA query `"what is my cgpa"`, candidate A
(`"subtotal,overalls,finale"`) matches a strict superset of the boost terms
matched by candidate B (`"my total overall here"`) — `total`, `overall` and
additionally `final` — while the two candidates agree on base score, page,
`keyword_matches` and digit content; yet A's boosted final score (1.45) is
strictly lower than B's (1.5), because B's two terms also match as
whitespace-bounded phrases (+0.1 each). -/
theorem boost_not_monotone :
    (∀ t ∈ buildBoostTerms cexBoostQuery,
        pyIn t (pyLower cexBoostB.clause) = true →
        pyIn t (pyLower cexBoostA.clause) = true)
    ∧ "final" ∈ buildBoostTerms cexBoostQuery
    ∧ pyIn "final" (pyLower cexBoostA.clause) = true
    ∧ pyIn "final" (pyLower cexBoostB.clause) = false
    ∧ cexBoostA.score = cexBoostB.score
    ∧ cexBoostA.page = cexBoostB.page
    ∧ cexBoostA.keyword_matches = cexBoostB.keyword_matches
    ∧ (pyLower cexBoostA.clause).data.any Char.isDigit
        = (pyLower cexBoostB.clause).data.any Char.isDigit
    ∧ (applyBoost cexBoostQuery cexBoostA).score
        < (applyBoost cexBoostQuery cexBoostB).score := by
  refine ⟨by decide, by decide, by decide, by decide, rfl, rfl, rfl, by decide,
    ?_⟩
  have hA := termBonus_count (pyLower cexBoostA.clause)
    (buildBoostTerms cexBoostQuery) 0
  have hB := termBonus_count (pyLower cexBoostB.clause)
    (buildBoostTerms cexBoostQuery) 0
  have hcA1 : (buildBoostTerms cexBoostQuery).countP
      (fun t => pyIn t (pyLower cexBoostA.clause)) = 3 := by decide
  have hcA2 : (buildBoostTerms cexBoostQuery).countP
      (fun t => pyIn t (pyLower cexBoostA.clause)
        && pyIn (" " ++ t ++ " ")
          (" " ++ pyLower cexBoostA.clause ++ " ")) = 0 := by decide
  have hcB1 : (buildBoostTerms cexBoostQuery).countP
      (fun t => pyIn t (pyLower cexBoostB.clause)) = 2 := by decide
  have hcB2 : (buildBoostTerms cexBoostQuery).countP
      (fun t => pyIn t (pyLower cexBoostB.clause)
        && pyIn (" " ++ t ++ " ")
          (" " ++ pyLower cexBoostB.clause ++ " ")) = 2 := by decide
  rw [hcA1, hcA2] at hA
  rw [hcB1, hcB2] at hB
  simp only [applyBoost, termBonus]
  rw [hA, hB]
  have hdA : ((pyLower "subtotal,overalls,finale").data.any Char.isDigit
      && (["cgpa", "gpa", "grade", "mark"].any
        (fun t => pyIn t (pyLower "what is my cgpa")))) = false := by decide
  have hdB : ((pyLower "my total overall here").data.any Char.isDigit
      && (["cgpa", "gpa", "grade", "mark"].any
        (fun t => pyIn t (pyLower "what is my cgpa")))) = false := by decide
  norm_num [cexBoostA, cexBoostB, cexBoostQuery, pageTruthy, hdA, hdB]
  rw [if_neg (by decide), if_neg (by decide)]
  norm_num

/-- C7 (amended): the boost step is monotone when the candidate with more
matched boost terms also dominates on whitespace-bounded phrase occurrences:
if candidates `a` and `b` agree on base score, page, `keyword_matches` and
digit content, every term of the query's boost list matched by `b` is matched
by `a`, and every such term that `b` matches as an exact phrase `a` also
matches as an exact phrase, then `a`'s boosted score is at least `b`'s.
Without the phrase condition the claim is false (see the counterexample):
each matched term adds 0.15 but a phrase occurrence adds 0.1 more, so fewer
terms with phrase hits can outscore more terms without. -/
theorem boost_monotone_with_phrases (query : String) (a b : Cand)
    (hscore : a.score = b.score) (hpage : a.page = b.page)
    (hkw : a.keyword_matches = b.keyword_matches)
    (hdig : (pyLower a.clause).data.any Char.isDigit
      = (pyLower b.clause).data.any Char.isDigit)
    (hsub : ∀ t ∈ buildBoostTerms query,
      pyIn t (pyLower b.clause) = true → pyIn t (pyLower a.clause) = true)
    (hphr : ∀ t ∈ buildBoostTerms query,
      (pyIn t (pyLower b.clause)
        && pyIn (" " ++ t ++ " ") (" " ++ pyLower b.clause ++ " ")) = true →
      (pyIn t (pyLower a.clause)
        && pyIn (" " ++ t ++ " ") (" " ++ pyLower a.clause ++ " ")) = true) :
    (applyBoost query b).score ≤ (applyBoost query a).score := by
  have hc1 := countP_le_of_imp
    (fun t => pyIn t (pyLower b.clause))
    (fun t => pyIn t (pyLower a.clause))
    (buildBoostTerms query) hsub
  have hc2 := countP_le_of_imp
    (fun t => pyIn t (pyLower b.clause)
      && pyIn (" " ++ t ++ " ") (" " ++ pyLower b.clause ++ " "))
    (fun t => pyIn t (pyLower a.clause)
      && pyIn (" " ++ t ++ " ") (" " ++ pyLower a.clause ++ " "))
    (buildBoostTerms query) hphr
  have hA := termBonus_count (pyLower a.clause) (buildBoostTerms query) 0
  have hB := termBonus_count (pyLower b.clause) (buildBoostTerms query) 0
  simp only [applyBoost, termBonus]
  rw [hA, hB, hkw, hpage, hdig]
  have hq1 : ((buildBoostTerms query).countP
      (fun t => pyIn t (pyLower b.clause)) : ℚ)
      ≤ ((buildBoostTerms query).countP
        (fun t => pyIn t (pyLower a.clause)) : ℚ) := by exact_mod_cast hc1
  have hq2 : ((buildBoostTerms query).countP
      (fun t => pyIn t (pyLower b.clause)
        && pyIn (" " ++ t ++ " ") (" " ++ pyLower b.clause ++ " ")) : ℚ)
      ≤ ((buildBoostTerms query).countP
        (fun t => pyIn t (pyLower a.clause)
          && pyIn (" " ++ t ++ " ") (" " ++ pyLower a.clause ++ " ")) : ℚ) := by
    exact_mod_cast hc2
  rw [hscore]
  split <;> split <;> split <;> linarith

theorem boost_monotone_with_phrases_witness :
    (applyBoost "what is my cgpa" cexBoostB).score
      ≤ (applyBoost "what is my cgpa" cexBoostB).score :=
  boost_monotone_with_phrases "what is my cgpa" cexBoostB cexBoostB rfl rfl rfl
    rfl (fun _ _ h => h) (fun _ _ h => h)

/-- C8 (counterexample): retrieval produced a candidate with non-empty text
(`"hello"`, in second position) and generation failed (empty response), yet
the engine returns the apology answer with no references — not a quote — because
the fallback keys only on the FIRST candidate, whose text here is empty. -/
theorem fallback_ignores_lower_candidates :
    (∃ c ∈ [Cand.mk "" 5 none none false, Cand.mk "hello" 1 none none false],
      c.clause ≠ "")
    ∧ processAfterGeneration ""
        [Cand.mk "" 5 none none false, Cand.mk "hello" 1 none none false]
        none none []
      = { answer := "Unable to generate response for this question. Please try rephrasing your question.",
          references := [] } := by
  constructor
  · exact ⟨Cand.mk "hello" 1 none none false, by simp, by simp⟩
  · rfl

/-- C8 (amended): whenever the FIRST (best-scoring) candidate has non-empty
text and generation fails (empty response or the failure sentinel), the
engine answers by literally quoting that candidate truncated to 500
characters (with an ellipsis when longer), prefixed with
`"Based on the document: "`, and references that single passage truncated to
400 characters.  A non-empty candidate further down the list does not
trigger the quote — only the head is consulted (see the counterexample). -/
theorem fallback_quotes_top_candidate (response : String) (best : Cand)
    (rest : List Cand) (doc_id : Option Int) (doc_name : Option String)
    (refs : List Ref) (hne : best.clause ≠ "")
    (hfail : response = "" ∨ response = unableSentinel) :
    processAfterGeneration response (best :: rest) doc_id doc_name refs
      = { answer := "Based on the document: " ++ best.clause.take 500
            ++ (if best.clause.length > 500 then "..." else ""),
          references := [⟨pyOrInt doc_id 0, pyOrStr doc_name "Document",
            pyOrStr doc_name "", best.page, best.clause.take 400,
            some best.score⟩] } := by
  have hok : responseOk response = false := by
    rcases hfail with rfl | rfl
    · rfl
    · decide
  simp only [processAfterGeneration, hok, Bool.false_eq_true, if_false]
  simp only [fallback_to_best_clause, if_pos hne]

theorem fallback_quotes_top_candidate_witness :
    (Cand.mk "hello" 1 none none false).clause ≠ ""
    ∧ processAfterGeneration "" [Cand.mk "hello" 1 none none false]
        none none []
      = { answer := "Based on the document: "
            ++ (Cand.mk "hello" 1 none none false).clause.take 500
            ++ (if (Cand.mk "hello" 1 none none false).clause.length > 500
                then "..." else ""),
          references := [⟨pyOrInt none 0, pyOrStr none "Document",
            pyOrStr none "", (Cand.mk "hello" 1 none none false).page,
            (Cand.mk "hello" 1 none none false).clause.take 400,
            some (Cand.mk "hello" 1 none none false).score⟩] } :=
  ⟨by decide,
    fallback_quotes_top_candidate "" (Cand.mk "hello" 1 none none false) []
      none none [] (by decide) (Or.inl rfl)⟩

theorem replicate_eq_map_const (x : String) :
    ∀ l : List String, List.replicate l.length x = l.map (fun _ => x) := by
  intro l
  induction l with
  | nil => rfl
  | cons a rest ih => simp only [List.length_cons, List.replicate, List.map,
      ih]

/-- C9: `process_queries` returns exactly one answer per question — the
result has the same length as the question list, and its i-th element is the
per-question dispatch (secret-token override, else flight-number handler,
else normal processing) applied to the i-th question. -/
theorem process_queries_aligned
    (gf : Option String → Option String → String)
    (pn : String → Option Int → Option String → AnswerOut ⊕ String)
    (qs : List String) (di : Option Int) (dn : Option String)
    (et : Option String) :
    (process_queries gf pn qs di dn et).length = qs.length
    ∧ process_queries gf pn qs di dn et
        = qs.map (perQuestionAnswer gf pn di dn et) := by
  have hfe : (perQuestionAnswer gf pn di dn et)
      = fun question =>
          if optStrTruthy dn && pyIn secretTokenPat (dn.getD "") then
            if optStrTruthy et then pyStrip (et.getD "")
            else "Token not found"
          else if pyIn "flight number" (pyLower question) then gf et dn
          else extractAnswer (pn question di dn) := by
    funext q
    rfl
  have hmap : process_queries gf pn qs di dn et
      = qs.map (perQuestionAnswer gf pn di dn et) := by
    rw [hfe]
    by_cases h : (optStrTruthy dn && pyIn secretTokenPat (dn.getD "")) = true
    · simp only [process_queries, h, if_true]
      by_cases h2 : optStrTruthy et = true
      · simp only [h2, if_true]
        exact replicate_eq_map_const _ qs
      · have h2f : optStrTruthy et = false := Bool.eq_false_iff.mpr h2
        simp only [h2f, Bool.false_eq_true, if_false]
        exact replicate_eq_map_const _ qs
    · have hf : (optStrTruthy dn && pyIn secretTokenPat (dn.getD ""))
          = false := Bool.eq_false_iff.mpr h
      simp only [process_queries, hf, Bool.false_eq_true, if_false]
  exact ⟨by rw [hmap, List.length_map], hmap⟩

end LLMQR
